import Mathlib

/-!
Shallow embedding of the bcon-backend disk cache and its retrieval
orchestration:

* `src/app/services/cache.py` (`CacheService`): a directory of files is
  modelled as a list of `CacheEntry` (name, byte content, mtime).  Bytes are
  `List Nat`, wall-clock times are `Nat`.  The MD5 hash `_get_cache_key` is
  abstracted as the configuration field `hashFn`; theorems quantify over it
  or assume the derived names are distinct where the argument needs it.
* `src/app/services/storage.py` (`ObjectStorageService.download_file`): the
  boto3 `get_object` outcome is modelled by `S3Result`; `download_file`
  catches every `ClientError` and returns `none`, exactly as the source.
* `src/app/routers/pdf.py` (`get_original_pdf`): cache check, remote
  download, Python falsiness test `if not file_data`, cache populate.

Filesystem side effects of `put` are additionally recorded as an `FsAction`
trace (`putTrace`), and the unlink-may-fail execution of the eviction pass
is modelled by `putE` (an `OSError` from `Path.unlink` propagates, as in the
source, which has no try/except around the eviction loop).
-/

/-- A file in the cache directory: its file name, its byte content and its
modification time (seconds). -/
structure CacheEntry where
  name : String
  data : List Nat
  mtime : Nat
deriving DecidableEq

abbrev CacheState := List CacheEntry

/-- Size of one entry, `stat().st_size` = the number of bytes written. -/
def entrySize (e : CacheEntry) : Nat := e.data.length

/-- `CacheService._get_cache_size`: sum of the sizes of all files. -/
def totalSize (st : CacheState) : Nat := (st.map entrySize).sum

/-- Configuration of `CacheService`: `max_size_bytes`, `ttl_seconds` and the
key-hashing function of `_get_cache_key` (MD5 in the source, abstracted). -/
structure CacheConfig where
  maxSizeBytes : Nat
  ttlSeconds : Nat
  hashFn : String → String

/-- `_get_cache_key` composed with `_get_cache_file_path`: the on-disk file
name is the hashed key with the extension appended. -/
def cacheFileName (cfg : CacheConfig) (filePath ext : String) : String :=
  cfg.hashFn filePath ++ ext

/-- Directory lookup of a file by name (`cache_file.exists()` plus reading
its metadata/content). -/
def lookupEntry (st : CacheState) (name : String) : Option CacheEntry :=
  st.find? (fun e => e.name == name)

/-- Removal of the file called `name` (`cache_file.unlink()`). -/
def eraseName (st : CacheState) (name : String) : CacheState :=
  st.filter (fun e => e.name != name)

/-- Insertion into a list sorted by ascending mtime; helper for
`sortByMtime`. -/
def insertByMtime (e : CacheEntry) : List CacheEntry → List CacheEntry
  | [] => [e]
  | x :: xs => if x.mtime < e.mtime then x :: insertByMtime e xs else e :: x :: xs

/-- `sorted(self.cache_dir.glob("*"), key=lambda p: p.stat().st_mtime)`:
sorting the directory listing by ascending modification time (ties are
broken arbitrarily, as the spec allows). -/
def sortByMtime : List CacheEntry → List CacheEntry
  | [] => []
  | e :: xs => insertByMtime e (sortByMtime xs)

/-- A filesystem side effect performed by the cache. -/
inductive FsAction where
  | write (path : String) (data : List Nat)
  | unlink (path : String)
  | rename (src dst : String)
deriving DecidableEq

def FsAction.isWrite : FsAction → Bool
  | .write _ _ => true
  | _ => false

def FsAction.isUnlink : FsAction → Bool
  | .unlink _ => true
  | _ => false

def FsAction.isRename : FsAction → Bool
  | .rename _ _ => true
  | _ => false

/-- The unlink actions emitted by the eviction loop of `_ensure_space`. -/
def evictOldestTrace (maxB req : Nat) : List CacheEntry → List FsAction
  | [] => []
  | e :: rest =>
    if totalSize (e :: rest) + req ≤ maxB then []
    else FsAction.unlink e.name :: evictOldestTrace maxB req rest

namespace CacheService

/-- The deletion loop of `_ensure_space`: walk the mtime-sorted file list,
stop as soon as `current_size + required_bytes <= max_size_bytes`, otherwise
unlink the oldest file and continue (`current_size` is decremented by the
deleted file's size, so it always equals the total size of the remaining
files). -/
def evictOldest (maxB req : Nat) : List CacheEntry → List CacheEntry
  | [] => []
  | e :: rest =>
    if totalSize (e :: rest) + req ≤ maxB then e :: rest
    else evictOldest maxB req rest

/-- `_ensure_space`: return unchanged when the new payload fits, otherwise
sort by mtime and run the eviction loop. -/
def ensureSpace (cfg : CacheConfig) (req : Nat) (st : CacheState) : CacheState :=
  if totalSize st + req ≤ cfg.maxSizeBytes then st
  else evictOldest cfg.maxSizeBytes req (sortByMtime st)

/-- `cache_file.write_bytes(data)`: an in-place whole-file write at the
final path; it replaces any file of the same name and stamps the current
time as mtime. -/
def writeBytes (st : CacheState) (name : String) (data : List Nat) (t : Nat) :
    CacheState :=
  eraseName st name ++ [⟨name, data, t⟩]

/-- `CacheService.get(file_path, extension)` at wall-clock time `t`: returns
the cache file path on a hit; on an entry whose age strictly exceeds
`ttl_seconds` (the source tests `file_age > self.ttl_seconds`) it unlinks
the file and returns `none`; returns the updated directory state. -/
def get (cfg : CacheConfig) (st : CacheState) (filePath ext : String) (t : Nat) :
    Option String × CacheState :=
  let name := cacheFileName cfg filePath ext
  match lookupEntry st name with
  | none => (none, st)
  | some e =>
    if cfg.ttlSeconds < t - e.mtime then (none, eraseName st name)
    else (some name, st)

/-- `CacheService.put(file_path, data, extension)` at wall-clock time `t`:
`_ensure_space(len(data))` followed by `cache_file.write_bytes(data)`. -/
def put (cfg : CacheConfig) (st : CacheState) (filePath : String)
    (data : List Nat) (ext : String) (t : Nat) : CacheState :=
  let st1 := ensureSpace cfg data.length st
  writeBytes st1 (cacheFileName cfg filePath ext) data t

/-- The filesystem actions performed by one `put` call: the unlinks of the
eviction pass followed by the single in-place write of the payload at the
final derived path. -/
def putTrace (cfg : CacheConfig) (st : CacheState) (filePath : String)
    (data : List Nat) (ext : String) (_t : Nat) : List FsAction :=
  (if totalSize st + data.length ≤ cfg.maxSizeBytes then []
   else evictOldestTrace cfg.maxSizeBytes data.length (sortByMtime st))
  ++ [FsAction.write (cacheFileName cfg filePath ext) data]

/-- The eviction loop of `_ensure_space` with `unlink` allowed to fail:
`fails p = true` means `Path.unlink()` raises `OSError` for the file `p`.
The source wraps the loop in no try/except, so a raised error propagates
immediately and aborts the pass. -/
def evictOldestE (maxB req : Nat) (fails : String → Bool) :
    List CacheEntry → Except Unit (List CacheEntry)
  | [] => Except.ok []
  | e :: rest =>
    if totalSize (e :: rest) + req ≤ maxB then Except.ok (e :: rest)
    else if fails e.name then Except.error ()
    else evictOldestE maxB req fails rest

/-- `CacheService.put` with failing unlinks: `_ensure_space` may raise while
deleting an eviction candidate, in which case the exception propagates out
of `put` and the payload is never written. -/
def putE (cfg : CacheConfig) (fails : String → Bool) (st : CacheState)
    (filePath : String) (data : List Nat) (ext : String) (t : Nat) :
    Except Unit CacheState :=
  let step :=
    if totalSize st + data.length ≤ cfg.maxSizeBytes then Except.ok st
    else evictOldestE cfg.maxSizeBytes data.length fails (sortByMtime st)
  match step with
  | Except.error e => Except.error e
  | Except.ok st1 =>
    Except.ok (writeBytes st1 (cacheFileName cfg filePath ext) data t)

end CacheService

/-- One `put` call of a sequential scenario: its arguments together with the
wall-clock time at which it runs. -/
structure PutCall where
  filePath : String
  data : List Nat
  ext : String
  t : Nat
deriving DecidableEq

/-- The cache entry a `PutCall` writes when nothing interferes. -/
def mkEntry (cfg : CacheConfig) (c : PutCall) : CacheEntry :=
  ⟨cacheFileName cfg c.filePath c.ext, c.data, c.t⟩

/-- Sequential execution of a list of `put` calls, collecting the final
directory state and the concatenated filesystem-action trace. -/
def runPuts (cfg : CacheConfig) : List PutCall → CacheState → CacheState × List FsAction
  | [], st => (st, [])
  | c :: cs, st =>
    let tr := CacheService.putTrace cfg st c.filePath c.data c.ext c.t
    let res := runPuts cfg cs (CacheService.put cfg st c.filePath c.data c.ext c.t)
    (res.fst, tr ++ res.snd)

/-- Outcome of the boto3 `get_object` call inside
`ObjectStorageService.download_file`: a body, a missing-key `ClientError`,
or any other (transient) `ClientError`. -/
inductive S3Result where
  | success (body : List Nat)
  | noSuchKey
  | transientError
deriving DecidableEq

/-- `ObjectStorageService.download_file`: returns the body on success and
`None` on any `ClientError` whatsoever — the except clause does not
distinguish a missing key from a transient failure. -/
def download_file (r : S3Result) : Option (List Nat) :=
  match r with
  | .success b => some b
  | .noSuchKey => none
  | .transientError => none

/-- Response of the `GET /api/pdf/files/{id}/pdf` route: a served file (the
path handed to `FileResponse`) or an `HTTPException`. -/
inductive PdfResponse where
  | fileResponse (path : String)
  | httpError (statusCode : Nat) (detail : String)
deriving DecidableEq

/-- `get_original_pdf` of `src/app/routers/pdf.py`, at wall-clock time `t`
and with the remote store's behaviour for this key given by `remote`:
try the cache; on a miss call `download_file`; `if not file_data` (Python
falsiness: `None` or empty bytes) raise 404; otherwise populate the cache
and serve the cached file. -/
def get_original_pdf (cfg : CacheConfig) (st : CacheState)
    (processingId : String) (remote : S3Result) (t : Nat) :
    PdfResponse × CacheState :=
  let filePath := processingId ++ "/original.pdf"
  let r := CacheService.get cfg st filePath ".pdf" t
  match r.fst with
  | some p => (.fileResponse p, r.snd)
  | none =>
    match download_file remote with
    | none => (.httpError 404 "PDF file not found", r.snd)
    | some fileData =>
      if fileData.isEmpty then (.httpError 404 "PDF file not found", r.snd)
      else (.fileResponse (cacheFileName cfg filePath ".pdf"),
            CacheService.put cfg r.snd filePath fileData ".pdf" t)

/-- Modelled from the spec: the most-recent (longest) suffix of an
mtime-ordered entry list whose cumulative size is at most `maxB` — "the
resident set is exactly the suffix of calls (by recency) whose cumulative
size is the largest ≤ M". -/
def largestFittingSuffix (maxB : Nat) : List CacheEntry → List CacheEntry
  | [] => []
  | e :: rest =>
    if totalSize (e :: rest) ≤ maxB then e :: rest
    else largestFittingSuffix maxB rest

/-- Whether some action of the trace writes file content directly at path
`p`. -/
def writesDirectlyTo (acts : List FsAction) (p : String) : Bool :=
  acts.any fun a =>
    match a with
    | .write q _ => q == p
    | _ => false

/-- Whether some action of the trace renames a file onto path `p`. -/
def renamesTo (acts : List FsAction) (p : String) : Bool :=
  acts.any fun a =>
    match a with
    | .rename _ dst => dst == p
    | _ => false

/-- Modelled from the spec: "writes are staged and made visible atomically
(write-then-rename semantics)" — the payload never lands on the final path
through a direct write, and the final path becomes visible through a rename
targeting it. -/
def stagedWriteThenRename (acts : List FsAction) (finalPath : String) : Prop :=
  writesDirectlyTo acts finalPath = false ∧ renamesTo acts finalPath = true

/-- Modelled from the spec: the "cumulative unique-entry size" of a sequence
of store calls — each distinct derived cache-file name is counted once, with
the size of its final store. -/
def uniqueEntrySize (cfg : CacheConfig) : List PutCall → Nat
  | [] => 0
  | c :: cs =>
    if (cs.map fun c2 => cacheFileName cfg c2.filePath c2.ext).contains
        (cacheFileName cfg c.filePath c.ext)
    then uniqueEntrySize cfg cs
    else c.data.length + uniqueEntrySize cfg cs

/-! Helper lemmas about sizes, sorting and the eviction loop. -/

lemma totalSize_nil : totalSize [] = 0 := rfl

lemma totalSize_cons (e : CacheEntry) (l : List CacheEntry) :
    totalSize (e :: l) = entrySize e + totalSize l := by
  simp [totalSize]

lemma totalSize_append (l1 l2 : List CacheEntry) :
    totalSize (l1 ++ l2) = totalSize l1 + totalSize l2 := by
  simp [totalSize]

lemma totalSize_append_singleton (l : List CacheEntry) (e : CacheEntry) :
    totalSize (l ++ [e]) = totalSize l + entrySize e := by
  rw [totalSize_append]; simp [totalSize]

lemma totalSize_filter_le (p : CacheEntry → Bool) (st : CacheState) :
    totalSize (st.filter p) ≤ totalSize st := by
  induction st with
  | nil => simp [totalSize]
  | cons e st ih =>
    rw [List.filter_cons]
    split
    · rw [totalSize_cons, totalSize_cons]; omega
    · rw [totalSize_cons]; omega

lemma totalSize_eraseName_le (st : CacheState) (n : String) :
    totalSize (eraseName st n) ≤ totalSize st :=
  totalSize_filter_le _ st

lemma totalSize_insertByMtime (e : CacheEntry) (l : List CacheEntry) :
    totalSize (insertByMtime e l) = entrySize e + totalSize l := by
  induction l with
  | nil => simp [insertByMtime, totalSize]
  | cons x xs ih =>
    rw [insertByMtime]
    split
    · rw [totalSize_cons, ih, totalSize_cons]; omega
    · rw [totalSize_cons, totalSize_cons]

lemma totalSize_sortByMtime (l : List CacheEntry) :
    totalSize (sortByMtime l) = totalSize l := by
  induction l with
  | nil => rfl
  | cons e xs ih =>
    rw [sortByMtime, totalSize_insertByMtime, ih, totalSize_cons]

lemma insertByMtime_eq_cons (e : CacheEntry) (l : List CacheEntry)
    (h : ∀ x ∈ l, e.mtime < x.mtime) : insertByMtime e l = e :: l := by
  cases l with
  | nil => rfl
  | cons x xs =>
    rw [insertByMtime,
      if_neg (by have := h x (List.mem_cons_self x xs); omega)]

lemma sortByMtime_eq_of_sorted (l : List CacheEntry)
    (h : l.Pairwise fun a b => a.mtime < b.mtime) : sortByMtime l = l := by
  induction l with
  | nil => rfl
  | cons e xs ih =>
    have h' := List.pairwise_cons.mp h
    rw [sortByMtime, ih h'.2, insertByMtime_eq_cons e xs h'.1]

lemma evictOldest_total {maxB req : Nat} (h : req ≤ maxB) (l : List CacheEntry) :
    totalSize (CacheService.evictOldest maxB req l) + req ≤ maxB := by
  induction l with
  | nil => simpa [CacheService.evictOldest, totalSize] using h
  | cons e rest ih =>
    rw [CacheService.evictOldest]
    split
    · assumption
    · exact ih

lemma evictOldest_nil_of_gt {maxB req : Nat} (h : maxB < req) (l : List CacheEntry) :
    CacheService.evictOldest maxB req l = [] := by
  induction l with
  | nil => rfl
  | cons e rest ih =>
    rw [CacheService.evictOldest, if_neg (by omega), ih]

lemma evictOldest_eq_of_fit {maxB req : Nat} (l : List CacheEntry)
    (h : totalSize l + req ≤ maxB) : CacheService.evictOldest maxB req l = l := by
  cases l with
  | nil => rfl
  | cons e rest => rw [CacheService.evictOldest, if_pos h]

lemma evictOldest_sublist (maxB req : Nat) (l : List CacheEntry) :
    (CacheService.evictOldest maxB req l).Sublist l := by
  induction l with
  | nil => exact List.Sublist.refl _
  | cons e rest ih =>
    rw [CacheService.evictOldest]
    split
    · exact List.Sublist.refl _
    · exact ih.trans (List.sublist_cons_self _ _)

lemma find?_append_of_none {p : CacheEntry → Bool} {l1 : List CacheEntry}
    (l2 : List CacheEntry) (h : ∀ x ∈ l1, p x = false) :
    (l1 ++ l2).find? p = l2.find? p := by
  induction l1 with
  | nil => rfl
  | cons x xs ih =>
    rw [List.cons_append, List.find?_cons, h x (List.mem_cons_self x xs)]
    exact ih fun y hy => h y (List.mem_cons_of_mem x hy)

lemma lookupEntry_writeBytes (st : CacheState) (n : String) (d : List Nat) (t : Nat) :
    lookupEntry (CacheService.writeBytes st n d t) n = some ⟨n, d, t⟩ := by
  rw [CacheService.writeBytes, lookupEntry, find?_append_of_none]
  · simp [List.find?]
  · intro x hx
    have hne : x.name ≠ n := by
      have := (List.mem_filter.mp hx).2
      simpa using this
    simpa using hne

lemma eraseName_eq_of_not_mem (st : CacheState) (n : String)
    (h : ∀ x ∈ st, x.name ≠ n) : eraseName st n = st := by
  rw [eraseName]
  exact List.filter_eq_self.mpr fun x hx => by simpa using h x hx

lemma lfs_total_le (maxB : Nat) (l : List CacheEntry) :
    totalSize (largestFittingSuffix maxB l) ≤ maxB := by
  induction l with
  | nil => simp [largestFittingSuffix, totalSize]
  | cons e rest ih =>
    rw [largestFittingSuffix]
    split
    · assumption
    · exact ih

lemma lfs_eq_of_le {maxB : Nat} {l : List CacheEntry} (h : totalSize l ≤ maxB) :
    largestFittingSuffix maxB l = l := by
  cases l with
  | nil => rfl
  | cons e rest => rw [largestFittingSuffix, if_pos h]

lemma lfs_sublist (maxB : Nat) (l : List CacheEntry) :
    (largestFittingSuffix maxB l).Sublist l := by
  induction l with
  | nil => exact List.Sublist.refl _
  | cons e rest ih =>
    rw [largestFittingSuffix]
    split
    · exact List.Sublist.refl _
    · exact ih.trans (List.sublist_cons_self _ _)

lemma lfs_append_absorb (maxB : Nat) (X Y : List CacheEntry) :
    largestFittingSuffix maxB (largestFittingSuffix maxB X ++ Y)
      = largestFittingSuffix maxB (X ++ Y) := by
  induction X with
  | nil => rfl
  | cons x X ih =>
    by_cases hX : totalSize (x :: X) ≤ maxB
    · rw [lfs_eq_of_le hX]
    · have hstep : largestFittingSuffix maxB (x :: X) = largestFittingSuffix maxB X := by
        rw [largestFittingSuffix, if_neg hX]
      have hTot : totalSize ((x :: X) ++ Y) = totalSize (x :: X) + totalSize Y :=
        totalSize_append _ _
      calc largestFittingSuffix maxB (largestFittingSuffix maxB (x :: X) ++ Y)
          = largestFittingSuffix maxB (largestFittingSuffix maxB X ++ Y) := by rw [hstep]
        _ = largestFittingSuffix maxB (X ++ Y) := ih
        _ = largestFittingSuffix maxB ((x :: X) ++ Y) := by
            rw [List.cons_append, largestFittingSuffix,
              if_neg (by rw [List.cons_append] at hTot; omega)]

lemma evictOldest_append_eq_lfs {maxB : Nat} (e : CacheEntry)
    (h : entrySize e ≤ maxB) (F : List CacheEntry) :
    CacheService.evictOldest maxB (entrySize e) F ++ [e]
      = largestFittingSuffix maxB (F ++ [e]) := by
  induction F with
  | nil =>
    rw [CacheService.evictOldest, List.nil_append,
      largestFittingSuffix, if_pos (by simpa [totalSize, entrySize] using h)]
  | cons f F ih =>
    have key : totalSize ((f :: F) ++ [e]) = totalSize (f :: F) + entrySize e :=
      totalSize_append_singleton _ _
    rw [List.cons_append] at key
    by_cases hfit : totalSize (f :: F) + entrySize e ≤ maxB
    · rw [CacheService.evictOldest, if_pos hfit, List.cons_append,
        largestFittingSuffix, if_pos (by omega)]
    · rw [CacheService.evictOldest, if_neg hfit, ih, List.cons_append,
        largestFittingSuffix, if_neg (by omega)]

lemma ensureSpace_eq_evictOldest (cfg : CacheConfig) (req : Nat) (st : CacheState)
    (hsorted : st.Pairwise fun a b => a.mtime < b.mtime) :
    CacheService.ensureSpace cfg req st
      = CacheService.evictOldest cfg.maxSizeBytes req st := by
  rw [CacheService.ensureSpace]
  split
  · exact (evictOldest_eq_of_fit st (by assumption)).symm
  · rw [sortByMtime_eq_of_sorted st hsorted]

lemma put_eq_lfs (cfg : CacheConfig) (st : CacheState) (fp : String)
    (data : List Nat) (ext : String) (t : Nat)
    (hsorted : st.Pairwise fun a b => a.mtime < b.mtime)
    (hfresh : ∀ x ∈ st, x.name ≠ cacheFileName cfg fp ext)
    (hsz : data.length ≤ cfg.maxSizeBytes) :
    CacheService.put cfg st fp data ext t
      = largestFittingSuffix cfg.maxSizeBytes
          (st ++ [⟨cacheFileName cfg fp ext, data, t⟩]) := by
  rw [CacheService.put, ensureSpace_eq_evictOldest cfg data.length st hsorted,
    CacheService.writeBytes,
    eraseName_eq_of_not_mem _ _ (fun x hx =>
      hfresh x ((evictOldest_sublist _ _ st).subset hx))]
  exact evictOldest_append_eq_lfs ⟨cacheFileName cfg fp ext, data, t⟩ hsz st

lemma runPuts_fst_eq_lfs (cfg : CacheConfig) (calls : List PutCall) :
    ∀ A : CacheState,
    totalSize A ≤ cfg.maxSizeBytes →
    ((A ++ calls.map (mkEntry cfg)).Pairwise fun a b => a.name ≠ b.name) →
    ((A ++ calls.map (mkEntry cfg)).Pairwise fun a b => a.mtime < b.mtime) →
    (∀ c ∈ calls, c.data.length ≤ cfg.maxSizeBytes) →
    (runPuts cfg calls A).fst
      = largestFittingSuffix cfg.maxSizeBytes (A ++ calls.map (mkEntry cfg)) := by
  induction calls with
  | nil =>
    intro A hAt _ _ _
    simp only [runPuts, List.map_nil, List.append_nil]
    exact (lfs_eq_of_le hAt).symm
  | cons c cs ih =>
    intro A hAt hnm hmt hsz
    simp only [List.map_cons] at hnm hmt
    have hsortedA : A.Pairwise fun a b => a.mtime < b.mtime :=
      (List.pairwise_append.mp hmt).1
    have hfreshA : ∀ x ∈ A, x.name ≠ (mkEntry cfg c).name := fun x hx =>
      (List.pairwise_append.mp hnm).2.2 x hx _ (List.mem_cons_self _ _)
    have hput : CacheService.put cfg A c.filePath c.data c.ext c.t
        = largestFittingSuffix cfg.maxSizeBytes (A ++ [mkEntry cfg c]) :=
      put_eq_lfs cfg A c.filePath c.data c.ext c.t hsortedA
        (fun x hx => hfreshA x hx) (hsz c (List.mem_cons_self _ _))
    have hsub : (largestFittingSuffix cfg.maxSizeBytes (A ++ [mkEntry cfg c])
        ++ cs.map (mkEntry cfg)).Sublist
        (A ++ (mkEntry cfg c :: cs.map (mkEntry cfg))) := by
      have h1 := (lfs_sublist cfg.maxSizeBytes (A ++ [mkEntry cfg c])).append
        (List.Sublist.refl (cs.map (mkEntry cfg)))
      simpa [List.append_assoc] using h1
    have ihres := ih (largestFittingSuffix cfg.maxSizeBytes (A ++ [mkEntry cfg c]))
      (lfs_total_le _ _) (hnm.sublist hsub) (hmt.sublist hsub)
      (fun c' hc' => hsz c' (List.mem_cons_of_mem _ hc'))
    simp only [runPuts, hput]
    rw [ihres, lfs_append_absorb, List.append_assoc, List.map_cons,
      List.singleton_append]

lemma runPuts_no_evict_aux (cfg : CacheConfig) (calls : List PutCall) :
    ∀ A : CacheState,
    ((A ++ calls.map (mkEntry cfg)).Pairwise fun a b => a.name ≠ b.name) →
    totalSize A + (calls.map fun c => c.data.length).sum ≤ cfg.maxSizeBytes →
    (runPuts cfg calls A).fst = A ++ calls.map (mkEntry cfg)
      ∧ ∀ a ∈ (runPuts cfg calls A).snd, a.isUnlink = false := by
  induction calls with
  | nil =>
    intro A _ _
    refine ⟨by simp [runPuts], by simp [runPuts]⟩
  | cons c cs ih =>
    intro A hnm hsum
    simp only [List.map_cons, List.sum_cons] at hsum
    have hfitc : totalSize A + c.data.length ≤ cfg.maxSizeBytes := by omega
    simp only [List.map_cons] at hnm
    have hfreshA : ∀ x ∈ A, x.name ≠ cacheFileName cfg c.filePath c.ext := fun x hx =>
      (List.pairwise_append.mp hnm).2.2 x hx _ (List.mem_cons_self _ _)
    have hput : CacheService.put cfg A c.filePath c.data c.ext c.t
        = A ++ [mkEntry cfg c] := by
      rw [CacheService.put, CacheService.ensureSpace, if_pos hfitc,
        CacheService.writeBytes, eraseName_eq_of_not_mem A _ hfreshA]
      rfl
    have htr : CacheService.putTrace cfg A c.filePath c.data c.ext c.t
        = [FsAction.write (cacheFileName cfg c.filePath c.ext) c.data] := by
      rw [CacheService.putTrace, if_pos hfitc, List.nil_append]
    have hnm' : ((A ++ [mkEntry cfg c]) ++ cs.map (mkEntry cfg)).Pairwise
        fun a b => a.name ≠ b.name := by
      rw [List.append_assoc, List.singleton_append]; exact hnm
    have hsum' : totalSize (A ++ [mkEntry cfg c])
        + (cs.map fun c2 => c2.data.length).sum ≤ cfg.maxSizeBytes := by
      rw [totalSize_append_singleton]
      have : entrySize (mkEntry cfg c) = c.data.length := rfl
      omega
    have ihres := ih (A ++ [mkEntry cfg c]) hnm' hsum'
    constructor
    · simp only [runPuts, hput]
      rw [ihres.1, List.append_assoc, List.map_cons, List.singleton_append]
    · simp only [runPuts, hput, htr]
      intro a ha
      rcases List.mem_append.mp ha with h | h
      · rcases List.mem_singleton.mp h with rfl
        rfl
      · exact ihres.2 a h

lemma evictOldestTrace_no_write (maxB req : Nat) (l : List CacheEntry) :
    ∀ a ∈ evictOldestTrace maxB req l, a.isWrite = false ∧ a.isRename = false := by
  induction l with
  | nil => simp [evictOldestTrace]
  | cons e rest ih =>
    rw [evictOldestTrace]
    split
    · simp
    · intro a ha
      rcases List.mem_cons.mp ha with h | h
      · subst h; exact ⟨rfl, rfl⟩
      · exact ih a h

/-! Concrete fixtures used by counterexamples and witnesses. -/

/-- A tiny configuration: 10-byte capacity, one-hour TTL, identity hash. -/
def cfg10 : CacheConfig := ⟨10, 3600, fun s => s⟩

/-- A configuration with a 5-second TTL, for the expiry-boundary claims. -/
def cfgTtl : CacheConfig := ⟨100, 5, fun s => s⟩

/-- The spec's concrete scenario configuration: `max_bytes = 10MB`,
`ttl = 3600s`. -/
def cfgMB : CacheConfig := ⟨10485760, 3600, fun s => s⟩

/-- Two resident files of 6 and 3 bytes, oldest first. -/
def stOld : CacheState := [⟨"old1", [0, 0, 0, 0, 0, 0], 0⟩, ⟨"old2", [0, 0, 0], 1⟩]

/-- The same 6-byte payload stored twice under the same key. -/
def callsDup : List PutCall :=
  [⟨"a", [0, 0, 0, 0, 0, 0], "", 0⟩, ⟨"a", [0, 0, 0, 0, 0, 0], "", 1⟩]

/-- Two distinct keys whose sizes sum below the 10-byte capacity. -/
def callsAB : List PutCall := [⟨"a", [0, 0, 0], "", 0⟩, ⟨"b", [0, 0, 0, 0], "", 1⟩]

/-- A single 12-byte store against the 10-byte capacity. -/
def callBig : PutCall := ⟨"a", List.replicate 12 0, "", 0⟩

/-- The spec's concrete scenario: key "a", 6MB, stored at t = 0. -/
def callA : PutCall := ⟨"a", List.replicate 6291456 0, "", 0⟩

/-- The spec's concrete scenario: key "b", 5MB, stored at t = 1. -/
def callB : PutCall := ⟨"b", List.replicate 5242880 0, "", 1⟩

/-! Claim theorems. -/

/-- Claim C4 (confirmed): after every sequential `put` call, the sum of the
sizes of all cache entries is at most `max_size_bytes`, except when the
stored payload alone exceeds `max_size_bytes`, in which case the cache
holds exactly that single oversized entry and the store still succeeds. -/
theorem c4_size_bound_after_put (cfg : CacheConfig) (st : CacheState)
    (fp : String) (data : List Nat) (ext : String) (t : Nat) :
    totalSize (CacheService.put cfg st fp data ext t) ≤ cfg.maxSizeBytes
    ∨ (cfg.maxSizeBytes < data.length
       ∧ CacheService.put cfg st fp data ext t
           = [⟨cacheFileName cfg fp ext, data, t⟩]) := by
  by_cases h : data.length ≤ cfg.maxSizeBytes
  · left
    rw [CacheService.put, CacheService.writeBytes, totalSize_append_singleton]
    have h1 : totalSize (eraseName (CacheService.ensureSpace cfg data.length st)
        (cacheFileName cfg fp ext))
        ≤ totalSize (CacheService.ensureSpace cfg data.length st) :=
      totalSize_eraseName_le _ _
    have h2 : totalSize (CacheService.ensureSpace cfg data.length st) + data.length
        ≤ cfg.maxSizeBytes := by
      rw [CacheService.ensureSpace]
      split
      · assumption
      · exact evictOldest_total h _
    have h3 : entrySize (⟨cacheFileName cfg fp ext, data, t⟩ : CacheEntry)
        = data.length := rfl
    omega
  · right
    refine ⟨by omega, ?_⟩
    rw [CacheService.put, CacheService.ensureSpace, if_neg (by omega),
      evictOldest_nil_of_gt (by omega), CacheService.writeBytes]
    rfl

/-- Claim C8 (confirmed): a `put(key, data, ext)` at time `t` followed
immediately by a `get(key, ext)` at the same time (single-threaded, no TTL
expiry in between) returns the derived location, and the file at that
location holds exactly the bytes of `data`. -/
theorem c8_roundtrip (cfg : CacheConfig) (st : CacheState) (fp : String)
    (data : List Nat) (ext : String) (t : Nat) :
    CacheService.get cfg (CacheService.put cfg st fp data ext t) fp ext t
      = (some (cacheFileName cfg fp ext), CacheService.put cfg st fp data ext t)
    ∧ lookupEntry (CacheService.put cfg st fp data ext t)
        (cacheFileName cfg fp ext) = some ⟨cacheFileName cfg fp ext, data, t⟩ := by
  have hlk : lookupEntry (CacheService.put cfg st fp data ext t)
      (cacheFileName cfg fp ext) = some ⟨cacheFileName cfg fp ext, data, t⟩ := by
    rw [CacheService.put]
    exact lookupEntry_writeBytes _ _ _ _
  refine ⟨?_, hlk⟩
  simp only [CacheService.get, hlk]
  rw [if_neg (by omega)]

/-- Claim C9 (confirmed): a `get` that returns a hit leaves the cache state
unchanged — in particular it never touches the entry's modification time,
so TTL age is measured from the last write, not the last read. -/
theorem c9_hit_no_side_effect (cfg : CacheConfig) (st : CacheState)
    (fp ext : String) (t : Nat) (p : String)
    (h : (CacheService.get cfg st fp ext t).fst = some p) :
    (CacheService.get cfg st fp ext t).snd = st := by
  simp only [CacheService.get] at h ⊢
  cases hl : lookupEntry st (cacheFileName cfg fp ext) with
  | none => simp [hl]
  | some e =>
    simp only [hl] at h ⊢
    by_cases hexp : cfg.ttlSeconds < t - e.mtime
    · rw [if_pos hexp] at h
      exact absurd h (by simp)
    · rw [if_neg hexp]

/-- Claim C9 witness: a concrete hit returns the entry and leaves the state
untouched. -/
theorem c9_witness :
    (CacheService.get cfg10 [⟨"k", [1], 0⟩] "k" "" 0).fst = some "k"
    ∧ (CacheService.get cfg10 [⟨"k", [1], 0⟩] "k" "" 0).snd = [⟨"k", [1], 0⟩] :=
  ⟨rfl, c9_hit_no_side_effect cfg10 [⟨"k", [1], 0⟩] "k" "" 0 "k" rfl⟩

/-- Claim C10 (confirmed): when the cache misses and the remote fetch
succeeds with a zero-byte body, `get_original_pdf` reports the 404
not-found condition and does not populate the cache: the falsiness test
`if not file_data` treats empty bytes like absence. -/
theorem c10_empty_body_reported_not_found (cfg : CacheConfig) (st : CacheState)
    (pid : String) (t : Nat)
    (hmiss : (CacheService.get cfg st (pid ++ "/original.pdf") ".pdf" t).fst = none) :
    get_original_pdf cfg st pid (S3Result.success []) t
      = (PdfResponse.httpError 404 "PDF file not found",
         (CacheService.get cfg st (pid ++ "/original.pdf") ".pdf" t).snd) := by
  simp only [get_original_pdf, hmiss, download_file, List.isEmpty_nil, if_true]

/-- Claim C10 witness: empty cache, remote returns a zero-byte object, the
route answers 404 and the cache stays empty. -/
theorem c10_witness :
    (CacheService.get cfg10 [] ("doc1" ++ "/original.pdf") ".pdf" 0).fst = none
    ∧ get_original_pdf cfg10 [] "doc1" (S3Result.success []) 0
        = (PdfResponse.httpError 404 "PDF file not found",
           (CacheService.get cfg10 [] ("doc1" ++ "/original.pdf") ".pdf" 0).snd) :=
  ⟨rfl, c10_empty_body_reported_not_found cfg10 [] "doc1" 0 rfl⟩

/-- Claim C1 counterexample: with an empty cache, a transient remote failure
is reported by `get_original_pdf` as 404 "PDF file not found" — exactly the
not-found condition, indistinguishable from a genuinely absent object, so
the orchestrator does report a remote failure as not-found. -/
theorem c1_counterexample :
    (get_original_pdf cfg10 [] "doc1" S3Result.transientError 0).fst
      = PdfResponse.httpError 404 "PDF file not found"
    ∧ (get_original_pdf cfg10 [] "doc1" S3Result.transientError 0).fst
      = (get_original_pdf cfg10 [] "doc1" S3Result.noSuchKey 0).fst :=
  ⟨rfl, rfl⟩

/-- Claim C1 (amended): on a cache miss, a transient remote failure is
surfaced as the same 404 not-found condition as an absent object —
`download_file` collapses every `ClientError` to `None` and the route maps
`None` to 404, so no distinct remote-error status reaches the boundary. -/
theorem c1_transient_error_reported_not_found (cfg : CacheConfig)
    (st : CacheState) (pid : String) (t : Nat)
    (hmiss : (CacheService.get cfg st (pid ++ "/original.pdf") ".pdf" t).fst = none) :
    (get_original_pdf cfg st pid S3Result.transientError t).fst
      = PdfResponse.httpError 404 "PDF file not found"
    ∧ get_original_pdf cfg st pid S3Result.transientError t
      = get_original_pdf cfg st pid S3Result.noSuchKey t := by
  constructor
  · simp only [get_original_pdf, hmiss, download_file]
  · simp only [get_original_pdf, hmiss, download_file]

/-- Claim C1 witness: the amended statement at an empty cache. -/
theorem c1_witness :
    (CacheService.get cfg10 [] ("doc1" ++ "/original.pdf") ".pdf" 0).fst = none
    ∧ (get_original_pdf cfg10 [] "doc1" S3Result.transientError 0).fst
        = PdfResponse.httpError 404 "PDF file not found"
    ∧ get_original_pdf cfg10 [] "doc1" S3Result.transientError 0
        = get_original_pdf cfg10 [] "doc1" S3Result.noSuchKey 0 :=
  ⟨rfl, (c1_transient_error_reported_not_found cfg10 [] "doc1" 0 rfl).1,
    (c1_transient_error_reported_not_found cfg10 [] "doc1" 0 rfl).2⟩

/-- Claim C2 counterexample: a concrete `put` writes the payload directly at
the final derived path and performs no rename, so write-then-rename staging
is absent. -/
theorem c2_counterexample :
    ¬ stagedWriteThenRename (CacheService.putTrace cfg10 [] "k" [0, 1] ".pdf" 0)
      (cacheFileName cfg10 "k" ".pdf") :=
  fun h => absurd h.1 (by decide)

/-- Claim C2 (amended): `put` performs exactly one write action — a direct
in-place write of the full payload at the final derived location — and
never a rename; no staging location exists, so atomic visibility for
concurrent readers is not provided by rename semantics. -/
theorem c2_direct_write_no_rename (cfg : CacheConfig) (st : CacheState)
    (fp : String) (data : List Nat) (ext : String) (t : Nat) :
    (CacheService.putTrace cfg st fp data ext t).filter FsAction.isWrite
      = [FsAction.write (cacheFileName cfg fp ext) data]
    ∧ ∀ a ∈ CacheService.putTrace cfg st fp data ext t, a.isRename = false := by
  constructor
  · rw [CacheService.putTrace, List.filter_append]
    have h1 : (if totalSize st + data.length ≤ cfg.maxSizeBytes then ([] : List FsAction)
        else evictOldestTrace cfg.maxSizeBytes data.length (sortByMtime st)).filter
        FsAction.isWrite = [] := by
      split
      · rfl
      · exact List.filter_eq_nil_iff.mpr fun a ha => by
          simp [(evictOldestTrace_no_write _ _ _ a ha).1]
    rw [h1, List.nil_append]
    rfl
  · intro a ha
    rw [CacheService.putTrace] at ha
    rcases List.mem_append.mp ha with h | h
    · revert h
      split
      · intro h
        exact absurd h (List.not_mem_nil a)
      · intro h
        exact (evictOldestTrace_no_write _ _ _ a h).2
    · rcases List.mem_singleton.mp h with rfl
      rfl

/-- Claim C3 counterexample: with `max_bytes = 10` and resident entries of 6
and 3 bytes, storing 5 more bytes needs eviction; when unlinking the oldest
candidate "old1" raises, the whole `put` aborts with the error instead of
skipping that candidate and attempting the write. -/
theorem c3_counterexample :
    CacheService.putE cfg10 (fun n => n == "old1") stOld "k" [0, 0, 0, 0, 0] "" 2
      = Except.error () := rfl

/-- Claim C3 (amended): a filesystem error while deleting the first eviction
candidate propagates out of `_ensure_space` (which has no try/except),
aborting the eviction pass and the whole store call — the new entry's write
is never attempted. -/
theorem c3_unlink_error_aborts_put (cfg : CacheConfig) (fails : String → Bool)
    (st : CacheState) (fp : String) (data : List Nat) (ext : String) (t : Nat)
    (e : CacheEntry) (rest : List CacheEntry)
    (hsort : sortByMtime st = e :: rest)
    (hfull : cfg.maxSizeBytes < totalSize st + data.length)
    (hfail : fails e.name = true) :
    CacheService.putE cfg fails st fp data ext t = Except.error () := by
  have htot : totalSize (e :: rest) = totalSize st := by
    rw [← hsort, totalSize_sortByMtime]
  simp only [CacheService.putE]
  rw [if_neg (by omega), hsort, CacheService.evictOldestE,
    if_neg (by omega), if_pos hfail]

/-- Claim C3 witness: the amended statement at the concrete two-entry
cache. -/
theorem c3_witness :
    (sortByMtime stOld
        = (⟨"old1", [0, 0, 0, 0, 0, 0], 0⟩ : CacheEntry) :: [⟨"old2", [0, 0, 0], 1⟩]
    ∧ cfg10.maxSizeBytes < totalSize stOld + ([1, 1, 1, 1, 1] : List Nat).length
    ∧ (fun n => n == "old1") (CacheEntry.name ⟨"old1", [0, 0, 0, 0, 0, 0], 0⟩) = true)
    ∧ CacheService.putE cfg10 (fun n => n == "old1") stOld "k2" [1, 1, 1, 1, 1] "" 2
        = Except.error () :=
  ⟨⟨rfl, by decide, rfl⟩,
    c3_unlink_error_aborts_put cfg10 (fun n => n == "old1") stOld "k2"
      [1, 1, 1, 1, 1] "" 2 ⟨"old1", [0, 0, 0, 0, 0, 0], 0⟩ [⟨"old2", [0, 0, 0], 1⟩]
      rfl (by decide) rfl⟩

/-- Claim C5 counterexample: with `max_bytes = 10`, storing key "a" (6
bytes) twice has cumulative unique-entry size 6 ≤ 10, yet the second call's
eviction pass unlinks the resident entry — an entry is evicted. -/
theorem c5_counterexample :
    uniqueEntrySize cfg10 callsDup ≤ cfg10.maxSizeBytes
    ∧ (runPuts cfg10 callsDup []).snd.any FsAction.isUnlink = true :=
  ⟨by decide, by decide⟩

/-- Claim C5 (amended): for every sequence of store calls whose derived
cache-file names are pairwise distinct and whose sizes sum to at most
`max_bytes`, no entry is ever evicted — the filesystem trace contains no
unlink and every stored entry is resident afterwards. -/
theorem c5_distinct_keys_no_eviction (cfg : CacheConfig) (calls : List PutCall)
    (hnames : (calls.map fun c => cacheFileName cfg c.filePath c.ext).Pairwise (· ≠ ·))
    (hsum : (calls.map fun c => c.data.length).sum ≤ cfg.maxSizeBytes) :
    (∀ a ∈ (runPuts cfg calls []).snd, a.isUnlink = false)
    ∧ (runPuts cfg calls []).fst = calls.map (mkEntry cfg) := by
  have hnm : (([] : CacheState) ++ calls.map (mkEntry cfg)).Pairwise
      fun a b => a.name ≠ b.name := by
    rw [List.nil_append, List.pairwise_map]
    exact List.pairwise_map.mp hnames
  have h := runPuts_no_evict_aux cfg calls [] hnm (by simpa [totalSize] using hsum)
  exact ⟨h.2, by simpa using h.1⟩

/-- Claim C5 witness: the amended statement at two distinct keys of sizes 3
and 4 against the 10-byte capacity. -/
theorem c5_witness :
    ((callsAB.map fun c => cacheFileName cfg10 c.filePath c.ext).Pairwise (· ≠ ·)
    ∧ (callsAB.map fun c => c.data.length).sum ≤ cfg10.maxSizeBytes)
    ∧ ((∀ a ∈ (runPuts cfg10 callsAB []).snd, a.isUnlink = false)
       ∧ (runPuts cfg10 callsAB []).fst = callsAB.map (mkEntry cfg10)) :=
  ⟨⟨by decide, by decide⟩,
    c5_distinct_keys_no_eviction cfg10 callsAB (by decide) (by decide)⟩

/-- Claim C6 counterexample: `max_bytes = 10` and a single 12-byte store
(sizes sum beyond the bound, keys trivially distinct): the resident set
keeps the oversized entry, while the largest suffix of the stored entries
with cumulative size ≤ 10 is the empty one. -/
theorem c6_counterexample :
    cfg10.maxSizeBytes < ([callBig].map fun c => c.data.length).sum
    ∧ (runPuts cfg10 [callBig] []).fst
        ≠ largestFittingSuffix cfg10.maxSizeBytes ([callBig].map (mkEntry cfg10)) :=
  ⟨by decide, by decide⟩

/-- Claim C6 (amended): for sequential stores with pairwise-distinct derived
names, strictly increasing call times, each payload at most `max_bytes`,
and sizes summing beyond `max_bytes`, the final resident set is exactly the
most-recent suffix of the stored entries whose cumulative size is the
largest value ≤ `max_bytes` (oldest-evicted-first determinism). -/
theorem c6_resident_set_is_fitting_suffix (cfg : CacheConfig) (calls : List PutCall)
    (hnames : (calls.map fun c => cacheFileName cfg c.filePath c.ext).Pairwise (· ≠ ·))
    (htimes : (calls.map fun c => c.t).Pairwise (· < ·))
    (hsizes : ∀ c ∈ calls, c.data.length ≤ cfg.maxSizeBytes)
    (_hover : cfg.maxSizeBytes < (calls.map fun c => c.data.length).sum) :
    (runPuts cfg calls []).fst
      = largestFittingSuffix cfg.maxSizeBytes (calls.map (mkEntry cfg)) := by
  have hnm : (([] : CacheState) ++ calls.map (mkEntry cfg)).Pairwise
      fun a b => a.name ≠ b.name := by
    rw [List.nil_append, List.pairwise_map]
    exact List.pairwise_map.mp hnames
  have hmt : (([] : CacheState) ++ calls.map (mkEntry cfg)).Pairwise
      fun a b => a.mtime < b.mtime := by
    rw [List.nil_append, List.pairwise_map]
    exact List.pairwise_map.mp htimes
  have h := runPuts_fst_eq_lfs cfg calls [] (by simp [totalSize]) hnm hmt hsizes
  simpa using h

/-- Claim C6 witness: the spec's concrete scenario — `max_bytes = 10MB`,
store "a" (6MB) at t = 0 then "b" (5MB) at t = 1; the resident set is the
largest fitting suffix, i.e. "a" evicted and "b" resident. -/
theorem c6_witness :
    (([callA, callB].map fun c => cacheFileName cfgMB c.filePath c.ext).Pairwise (· ≠ ·)
    ∧ ([callA, callB].map fun c => c.t).Pairwise (· < ·)
    ∧ (∀ c ∈ [callA, callB], c.data.length ≤ cfgMB.maxSizeBytes)
    ∧ cfgMB.maxSizeBytes < ([callA, callB].map fun c => c.data.length).sum)
    ∧ (runPuts cfgMB [callA, callB] []).fst
        = largestFittingSuffix cfgMB.maxSizeBytes ([callA, callB].map (mkEntry cfgMB)) := by
  have h1 : ([callA, callB].map fun c => cacheFileName cfgMB c.filePath c.ext).Pairwise
      (· ≠ ·) := by decide
  have h2 : ([callA, callB].map fun c => c.t).Pairwise (· < ·) := by decide
  have hlenA : callA.data.length = 6291456 := by
    rw [show callA.data = List.replicate 6291456 0 from rfl, List.length_replicate]
  have hlenB : callB.data.length = 5242880 := by
    rw [show callB.data = List.replicate 5242880 0 from rfl, List.length_replicate]
  have h3 : ∀ c ∈ [callA, callB], c.data.length ≤ cfgMB.maxSizeBytes := by
    intro c hc
    rcases List.mem_cons.mp hc with rfl | hc
    · rw [hlenA]; decide
    · rcases List.mem_singleton.mp hc with rfl
      rw [hlenB]; decide
  have h4 : cfgMB.maxSizeBytes < ([callA, callB].map fun c => c.data.length).sum := by
    rw [List.map_cons, List.map_cons, List.map_nil, List.sum_cons, List.sum_cons,
      List.sum_nil, hlenA, hlenB]
    decide
  exact ⟨⟨h1, h2, h3, h4⟩,
    c6_resident_set_is_fitting_suffix cfgMB [callA, callB] h1 h2 h3 h4⟩

/-- Claim C7 counterexample: with `ttl_seconds = 5`, an entry written at
time 0 and looked up at time 5 (age = ttl exactly) is returned as a hit,
although the claim demands a miss for `T' - T ≥ ttl_seconds`. -/
theorem c7_counterexample :
    (5 : Nat) - 0 ≥ cfgTtl.ttlSeconds
    ∧ (CacheService.get cfgTtl [⟨"k", [0], 0⟩] "k" "" 5).fst = some "k" :=
  ⟨by decide, rfl⟩

/-- Claim C7 (amended): for an entry written at time `T`, a lookup at time
`T'` is a hit iff `T' - T ≤ ttl_seconds` — the source tests
`file_age > ttl_seconds`, so age exactly `ttl_seconds` is still a hit; when
`T' - T > ttl_seconds` the lookup returns absent and unlinks the entry's
file as part of that lookup. -/
theorem c7_ttl_boundary (cfg : CacheConfig) (st : CacheState) (fp ext : String)
    (tW tR : Nat) (e : CacheEntry)
    (hlook : lookupEntry st (cacheFileName cfg fp ext) = some e)
    (hmt : e.mtime = tW) (_hle : tW ≤ tR) :
    (tR - tW ≤ cfg.ttlSeconds →
      CacheService.get cfg st fp ext tR = (some (cacheFileName cfg fp ext), st))
    ∧ (cfg.ttlSeconds < tR - tW →
      CacheService.get cfg st fp ext tR
        = (none, eraseName st (cacheFileName cfg fp ext))) := by
  constructor
  · intro hfresh
    simp only [CacheService.get, hlook]
    rw [hmt, if_neg (by omega)]
  · intro hstale
    simp only [CacheService.get, hlook]
    rw [hmt, if_pos hstale]

/-- Claim C7 witness: the amended statement at `ttl = 5`, write time 0,
lookup time 7 — a stale entry is deleted and reported absent. -/
theorem c7_witness :
    (lookupEntry [⟨"k", [0], 0⟩] (cacheFileName cfgTtl "k" "")
        = some (⟨"k", [0], 0⟩ : CacheEntry)
    ∧ CacheEntry.mtime ⟨"k", [0], 0⟩ = 0
    ∧ (0 : Nat) ≤ 7)
    ∧ CacheService.get cfgTtl [⟨"k", [0], 0⟩] "k" "" 7
        = (none, eraseName [⟨"k", [0], 0⟩] (cacheFileName cfgTtl "k" "")) :=
  ⟨⟨rfl, rfl, by decide⟩,
    (c7_ttl_boundary cfgTtl [⟨"k", [0], 0⟩] "k" "" 0 7 ⟨"k", [0], 0⟩ rfl rfl
      (by decide)).2 (by decide)⟩
